import Mathlib

/-!
Verification of the log-monitoring pipeline (`monitoring/` package):
shallow embedding of `parser.py`, `evaluator.py`, `sources.py`, `db.py`
and `runner.py`, followed by theorems about the embedded definitions.

Conventions of the embedding:
* A parsed JSON document is a `Json` tree.  `json.loads` integers become
  `Json.int`, non-integral numbers `Json.float` (payload modelled as `ℚ`).
* Python `dict.get(k)` returns `None` when the key is missing, and JSON
  `null` also loads as `None`; both are therefore represented uniformly by
  `Json.null` (`pyGet`).  `dict.get(k, d)` is `pyGetD`.
* Code that can raise (`AttributeError`/`TypeError`/`KeyError` on
  malformed documents) is embedded in `Except Unit`; `.error ()` marks a
  raised exception, and totality of the Lean functions models the absence
  of any other failure.
* `float` arithmetic of the Python code (`len(words)/max(1, ...)`,
  Jaccard `>= 0.08`) is modelled with exact rationals; for the small
  integer operands involved the comparisons agree with IEEE doubles.
-/

/-- JSON value tree, the result of `json.loads`. -/
inductive Json where
  | null
  | bool (b : Bool)
  | int (n : Int)
  | float (q : ℚ)
  | str (s : String)
  | arr (items : List Json)
  | obj (fields : List (String × Json))

/-- Last binding of a key in an object, as `json.loads` keeps the last
duplicate key. `none` means the key is absent. -/
def lookupOpt (fields : List (String × Json)) (k : String) : Option Json :=
  fields.foldl (fun acc p => if p.1 == k then some p.2 else acc) none

/-- Python `dict.get(k)`: the value, or `None` (= JSON null) when absent. -/
def pyGet (fields : List (String × Json)) (k : String) : Json :=
  (lookupOpt fields k).getD Json.null

/-- Python `dict.get(k, d)` with an explicit default. -/
def pyGetD (fields : List (String × Json)) (k : String) (d : Json) : Json :=
  (lookupOpt fields k).getD d

/-- Python truthiness of a loaded JSON value. -/
def pyTruthy : Json → Bool
  | .null => false
  | .bool b => b
  | .int n => n != 0
  | .float q => q != 0
  | .str s => s != ""
  | .arr l => !l.isEmpty
  | .obj f => !f.isEmpty

/-- Python `x or y` on JSON values: `y` when `x` is falsy. -/
def pyOr (a b : Json) : Json := if pyTruthy a then a else b

/-- Python `x or []`. -/
def orList (v : Json) : Json := if pyTruthy v then v else .arr []

/-- Python `x or {}`. -/
def orObj (v : Json) : Json := if pyTruthy v then v else .obj []

/-- Python `isinstance(v, int)` on a loaded value (`bool` is an `int` in
Python). -/
def pyIsInt : Json → Bool
  | .int _ => true
  | .bool _ => true
  | _ => false

/-- `int(v) if isinstance(v, int) else None` (`parse_log_file`). -/
def pyIntOf : Json → Option Int
  | .int n => some n
  | .bool b => some (if b then 1 else 0)
  | _ => none

mutual

/-- Python `repr()` of a loaded JSON value. String escaping and the exact
float rendering are approximated (no verified property depends on them). -/
def pyRepr : Json → String
  | .null => "None"
  | .bool true => "True"
  | .bool false => "False"
  | .int n => toString n
  | .float q => toString q
  | .str s => "'" ++ s ++ "'"
  | .arr l => "[" ++ pyReprItems l ++ "]"
  | .obj f => "\x7b" ++ pyReprFields f ++ "\x7d"

/-- Comma-separated list items of `pyRepr`. -/
def pyReprItems : List Json → String
  | [] => ""
  | [x] => pyRepr x
  | x :: y :: rest => pyRepr x ++ ", " ++ pyReprItems (y :: rest)

/-- Comma-separated object fields of `pyRepr`. -/
def pyReprFields : List (String × Json) → String
  | [] => ""
  | [(k, v)] => "'" ++ k ++ "': " ++ pyRepr v
  | (k, v) :: y :: rest => "'" ++ k ++ "': " ++ pyRepr v ++ ", " ++ pyReprFields (y :: rest)

end

/-- Python `str()` of a loaded JSON value (`str` of a string is itself,
everything else equals its `repr`). -/
def pyStr : Json → String
  | .str s => s
  | j => pyRepr j

/-- `str(v) if v is not None else None`, used for `provider`/`agent_name`
in `parse_log_file`. -/
def strIfNotNone : Json → Option String
  | .null => none
  | j => some (pyStr j)

/-! ### String helpers shared by `parser.py` and `evaluator.py`

Python's `re` with `str` patterns matches some non-ASCII characters for
`\s`/`\d`; the log text handled by the pipeline is modelled over the ASCII
classes that the patterns `[A-Za-z0-9_]+`, `[.!?]+\s+` and
`(^|\n)\s*(?:[-*]|\d+\.)\s+` name explicitly. -/

/-- ASCII whitespace, the `\s` class. -/
def pyIsSpace (c : Char) : Bool :=
  c = ' ' || c = '\t' || c = '\n' || c = '\r' || c = '\x0b' || c = '\x0c'

/-- The `[A-Za-z0-9_]` class of `_tokenize`. -/
def pyIsWord (c : Char) : Bool :=
  ('A' ≤ c && c ≤ 'Z') || ('a' ≤ c && c ≤ 'z') || ('0' ≤ c && c ≤ '9') || c = '_'

/-- The `\d` class. -/
def pyIsDigit (c : Char) : Bool := '0' ≤ c && c ≤ '9'

/-- Python `str.lower()` (ASCII letters), character by character. -/
def lowerStr (s : String) : String := String.mk (s.toList.map Char.toLower)

/-- Maximal `[A-Za-z0-9_]+` runs: `cur` is the current run reversed. -/
def tokRuns : List Char → List Char → List String
  | cur, [] => if cur.isEmpty then [] else [String.mk cur.reverse]
  | cur, c :: rest =>
    if pyIsWord c then tokRuns (c :: cur) rest
    else if cur.isEmpty then tokRuns [] rest
    else String.mk cur.reverse :: tokRuns [] rest

/-- `_tokenize`: `re.findall(r"[A-Za-z0-9_]+", text.lower())`. -/
def pyTokenize (s : String) : List String := tokRuns [] (lowerStr s).toList

/-- Does `s` start with the character list `p`? -/
def listStarts : List Char → List Char → Bool
  | [], _ => true
  | _ :: _, [] => false
  | a :: p, b :: s => a == b && listStarts p s

/-- Python `needle in hay` substring test (character lists). -/
def subLoop (p : List Char) : List Char → Bool
  | [] => listStarts p []
  | c :: s => listStarts p (c :: s) || subLoop p s

/-- Python `needle in hay` substring test. -/
def strContains (hay needle : String) : Bool := subLoop needle.toList hay.toList

/-- Python `str.strip()` on a character list. -/
def stripList (l : List Char) : List Char :=
  ((l.dropWhile pyIsSpace).reverse.dropWhile pyIsSpace).reverse

/-- Python `str.strip()`. -/
def pyStrip (s : String) : String := String.mk (stripList s.toList)

/-- The `[.!?]` class of the sentence splitter. -/
def sentPunct (c : Char) : Bool := c = '.' || c = '!' || c = '?'

/-- One left-to-right scan of `re.split(r"[.!?]+\s+", ·)`: a match is a
maximal `[.!?]` run immediately followed by at least one whitespace
character (taken maximally, as `\s+` is greedy and nothing follows it in
the pattern).  `acc` is the current piece reversed.  Each step consumes at
least one character, so `fuel = length + 1` never runs out; the fuel
branch is unreachable. -/
def sentGo : Nat → List Char → List Char → List (List Char)
  | 0, acc, cs => [acc.reverse ++ cs]
  | _ + 1, acc, [] => [acc.reverse]
  | fuel + 1, acc, c :: rest =>
    if sentPunct c then
      let run := c :: rest.takeWhile sentPunct
      match rest.dropWhile sentPunct with
      | d :: rest2 =>
        if pyIsSpace d then acc.reverse :: sentGo fuel [] (rest2.dropWhile pyIsSpace)
        else sentGo fuel (run.reverse ++ acc) (d :: rest2)
      | [] => [acc.reverse ++ run]
    else sentGo fuel (c :: acc) rest

/-- `re.split(r"[.!?]+\s+", s)`. -/
def sentSplit (s : String) : List String :=
  (sentGo (s.length + 1) [] s.toList).map String.mk

/-- Does a bullet item `(?:[-*]|\d+\.)\s+` start here (after optional
whitespace, as the `\s*` of the pattern)?  The `\s*`/`\d+` runs are forced
maximal because the following literals are never in those classes. -/
def bulletAt (cs : List Char) : Bool :=
  match cs.dropWhile pyIsSpace with
  | '-' :: r => match r with | c :: _ => pyIsSpace c | [] => false
  | '*' :: r => match r with | c :: _ => pyIsSpace c | [] => false
  | t =>
    if (t.takeWhile pyIsDigit).isEmpty then false
    else match t.dropWhile pyIsDigit with
      | '.' :: r => match r with | c :: _ => pyIsSpace c | [] => false
      | _ => false

/-- Anchors after a newline for `hasBullets`. -/
def bulletScan : List Char → Bool
  | [] => false
  | c :: rest => (c = '\n' && bulletAt rest) || bulletScan rest

/-- `re.search(r"(^|\n)\s*(?:[-*]|\d+\.)\s+", s)` as a Boolean. -/
def hasBullets (s : String) : Bool := bulletAt s.toList || bulletScan s.toList

/-! ### `fnmatch` glob matching and lexicographic name order (`sources.py`) -/

/-- Find the closing `]` of a character class; `acc` is the class body
reversed.  `none` when there is no closing bracket (literal `[`). -/
def findClose : List Char → List Char → Option (List Char × List Char)
  | _, [] => none
  | acc, ']' :: r => some (acc.reverse, r)
  | acc, c :: r => findClose (c :: acc) r

/-- Parse a `[...]` class after the opening bracket: negation flag, class
body and the rest of the pattern.  A `]` right after `[`/`[!` is a literal
member of the class, as in `fnmatch.translate`. -/
def parseClass (p : List Char) : Option (Bool × List Char × List Char) :=
  let (neg, p1) := match p with | '!' :: r => (true, r) | _ => (false, p)
  let (lead, p2) := match p1 with | ']' :: r => ([']'], r) | _ => (([] : List Char), p1)
  match findClose [] p2 with
  | some (body, rest) => some (neg, lead ++ body, rest)
  | none => none

/-- Membership in a class body with `a-b` ranges. -/
def classHas : List Char → Char → Bool
  | [], _ => false
  | a :: '-' :: b :: rest, c => (a ≤ c && c ≤ b) || classHas rest c
  | a :: rest, c => a == c || classHas rest c

/-- `fnmatch` matching of pattern against name.  Every recursive call
shortens `pattern.length + name.length`, so `fuel = sum + 1` suffices and
the fuel branch is unreachable. -/
def fnmatchGo : Nat → List Char → List Char → Bool
  | 0, _, _ => false
  | _ + 1, [], s => s.isEmpty
  | fuel + 1, '*' :: p, s =>
    fnmatchGo fuel p s || (match s with | [] => false | _ :: s2 => fnmatchGo fuel ('*' :: p) s2)
  | fuel + 1, '?' :: p, s =>
    (match s with | [] => false | _ :: s2 => fnmatchGo fuel p s2)
  | fuel + 1, '[' :: p, s =>
    (match parseClass p with
     | some (neg, body, rest) =>
       match s with
       | [] => false
       | c :: s2 => (classHas body c != neg) && fnmatchGo fuel rest s2
     | none => match s with | '[' :: s2 => fnmatchGo fuel p s2 | _ => false)
  | fuel + 1, c :: p, s =>
    (match s with | d :: s2 => c == d && fnmatchGo fuel p s2 | [] => false)

/-- `fnmatch.fnmatch(name, pattern)` (POSIX `normcase` is the identity). -/
def fnmatchStr (name pattern : String) : Bool :=
  fnmatchGo (pattern.length + name.length + 1) pattern.toList name.toList

/-- Lexicographic `≤` on character lists by code point, Python string
comparison. -/
def lexLe : List Char → List Char → Bool
  | [], _ => true
  | _ :: _, [] => false
  | c :: cs, d :: ds => if c == d then lexLe cs ds else decide (c < d)

/-- Python `≤` on strings. -/
def strLeB (a b : String) : Bool := lexLe a.toList b.toList

/-! ### `schemas.py` -/

/-- The fixed enumeration of evaluator check kinds. -/
inductive CheckName where
  | instructions_follow
  | instructions_avoid
  | answer_clear
  | answer_match
  | answer_citations
  | completeness
  | tool_call_search
deriving DecidableEq

/-- Observation of a `raw_json` string through the only way the pipeline
reads it: `json.loads(raw or "{}")` inside a `try`.  `empty` is the empty
string (falsy, loads as if `"{}"`), `malformed` a non-empty string that
`json.loads` rejects, `wellFormed doc` a string parsing to `doc`. -/
inductive RawJson where
  | empty
  | malformed
  | wellFormed (doc : Json)

/-- `LLMLogRecord`.  Costs are `Decimal`s, embedded as rationals. -/
structure LLMLogRecord where
  filepath : String
  agent_name : Option String
  provider : Option String
  model : Option String
  user_prompt : Option String
  instructions : Option String
  total_input_tokens : Option Int
  total_output_tokens : Option Int
  assistant_answer : Option String
  raw_json : Option RawJson
  input_cost : Option ℚ := none
  output_cost : Option ℚ := none
  total_cost : Option ℚ := none

/-- `CheckResult`.  The free-text `details` field is not modelled; no
verified property reads it. -/
structure CheckResult where
  log_id : Int
  check_name : CheckName
  passed : Option Bool := none
  score : Option ℚ := none

/-! ### `parser.py`

Each helper follows the Python loops element by element: iterating a
truthy non-list (or calling `.get` on a non-dict element) raises, which
the embedding reports as `.error ()`; an early `return` before the bad
element still succeeds. -/

/-- Inner loop of the first pass of `_get_first_user_prompt`: the first
part tagged `part_kind == "user-prompt"` with truthy content. -/
def partScanKind : List Json → Except Unit (Option String)
  | [] => .ok none
  | p :: rest =>
    match p with
    | .obj pf =>
      if (match pyGet pf "part_kind" with | .str s => s == "user-prompt" | _ => false) then
        let c := pyGet pf "content"
        if pyTruthy c then .ok (some (pyStr c)) else partScanKind rest
      else partScanKind rest
    | _ => .error ()

/-- Inner loop of the fallback pass: the first part whose `content` is a
string. -/
def partScanAny : List Json → Except Unit (Option String)
  | [] => .ok none
  | p :: rest =>
    match p with
    | .obj pf =>
      match pyGet pf "content" with
      | .str c => .ok (some c)
      | _ => partScanAny rest
    | _ => .error ()

/-- First pass of `_get_first_user_prompt` over the messages. -/
def promptScanKind : List Json → Except Unit (Option String)
  | [] => .ok none
  | m :: rest =>
    match m with
    | .obj mf =>
      match orList (pyGet mf "parts") with
      | .arr ps =>
        match partScanKind ps with
        | .error e => .error e
        | .ok (some s) => .ok (some s)
        | .ok none => promptScanKind rest
      | _ => .error ()
    | _ => .error ()

/-- Fallback pass of `_get_first_user_prompt` over the messages. -/
def promptScanAny : List Json → Except Unit (Option String)
  | [] => .ok none
  | m :: rest =>
    match m with
    | .obj mf =>
      match orList (pyGet mf "parts") with
      | .arr ps =>
        match partScanAny ps with
        | .error e => .error e
        | .ok (some s) => .ok (some s)
        | .ok none => promptScanAny rest
      | _ => .error ()
    | _ => .error ()

/-- `_get_first_user_prompt(messages)`; the argument is the already
`or []`-normalised `messages` value. -/
def getFirstUserPrompt (msgs : Json) : Except Unit (Option String) :=
  match msgs with
  | .arr l =>
    (match promptScanKind l with
     | .error e => .error e
     | .ok (some s) => .ok (some s)
     | .ok none => promptScanAny l)
  | _ => .error ()

/-- `_get_instructions(doc)`. -/
def getInstructions (fields : List (String × Json)) : Except Unit (Option String) :=
  match orList (pyGet fields "messages") with
  | .arr [] =>
    -- `if messages:` is false; fall through to `system_prompt`
    .ok (match pyGet fields "system_prompt" with
         | .arr l => some (String.intercalate "\n"
             (l.filterMap (fun x => match x with | .str s => some s | _ => none)))
         | .str s => some s
         | _ => none)
  | .arr (m :: _) =>
    match m with
    | .obj mf =>
      let instr := pyGet mf "instructions"
      if pyTruthy instr then .ok (some (pyStr instr))
      else
        .ok (match pyGet fields "system_prompt" with
             | .arr l => some (String.intercalate "\n"
                 (l.filterMap (fun x => match x with | .str s => some s | _ => none)))
             | .str s => some s
             | _ => none)
    | _ => .error ()
  | _ => .error ()

/-- Reverse scan of `_get_model` for a truthy `model_name`. -/
def modelScan : List Json → Except Unit (Option String)
  | [] => .ok none
  | m :: rest =>
    match m with
    | .obj mf =>
      let name := pyGet mf "model_name"
      if pyTruthy name then .ok (some (pyStr name)) else modelScan rest
    | _ => .error ()

/-- `_get_model(doc)`. -/
def getModel (fields : List (String × Json)) : Except Unit (Option String) :=
  let model := pyGet fields "model"
  if pyTruthy model then .ok (some (pyStr model))
  else
    match orList (pyGet fields "messages") with
    | .arr l => modelScan l.reverse
    | _ => .error ()

/-- `_get_total_usage(doc)`: the raw `input_tokens`/`output_tokens`
values of `doc.get("usage") or {}`. -/
def getTotalUsage (fields : List (String × Json)) : Except Unit (Json × Json) :=
  match orObj (pyGet fields "usage") with
  | .obj uf => .ok (pyGet uf "input_tokens", pyGet uf "output_tokens")
  | _ => .error ()

/-- The `chunks` list collected from a top-level `output` object:
`title` if it is a string, then per dict section its string `heading` and
string `content`. -/
def outputChunks (o : List (String × Json)) : List String :=
  (match pyGet o "title" with | .str t => [t] | _ => []) ++
  (match pyGet o "sections" with
   | .arr secs =>
     secs.flatMap (fun s =>
       match s with
       | .obj sf =>
         (match pyGet sf "heading" with | .str h => [h] | _ => []) ++
         (match pyGet sf "content" with | .str c => [c] | _ => [])
       | _ => [])
   | _ => [])

/-- Fallback scan of `_extract_answer`: messages newest-first, within a
message the parts in document order, first string `content` wins. -/
def fbScan : List Json → Except Unit (Option String)
  | [] => .ok none
  | m :: rest =>
    match m with
    | .obj mf =>
      match orList (pyGet mf "parts") with
      | .arr ps =>
        match partScanAny ps with
        | .error e => .error e
        | .ok (some s) => .ok (some s)
        | .ok none => fbScan rest
      | _ => .error ()
    | _ => .error ()

/-- The fallback branch of `_extract_answer`. -/
def extractFallback (fields : List (String × Json)) : Except Unit (Option String) :=
  match orList (pyGet fields "messages") with
  | .arr l => fbScan l.reverse
  | _ => .error ()

/-- `_extract_answer(doc)`. -/
def extractAnswer (fields : List (String × Json)) : Except Unit (Option String) :=
  match pyGet fields "output" with
  | .obj o =>
    let chunks := outputChunks o
    if chunks.isEmpty then extractFallback fields
    else .ok (some (String.intercalate "\n\n" chunks))
  | _ => extractFallback fields

/-- `parse_log_file`: the file content is given by its `json.loads`
observation (`none` = unreadable or malformed JSON, a `ParseError`).
The record keeps the raw text, observed as `RawJson.wellFormed doc`. -/
def parseLogFile (path : String) (content : Option Json) : Except Unit LLMLogRecord :=
  match content with
  | none => .error ()
  | some (.obj fields) =>
    match getFirstUserPrompt (orList (pyGet fields "messages")) with
    | .error e => .error e
    | .ok up =>
      match getInstructions fields with
      | .error e => .error e
      | .ok instr =>
        match getModel fields with
        | .error e => .error e
        | .ok model =>
          match getTotalUsage fields with
          | .error e => .error e
          | .ok (tinJ, toutJ) =>
            match extractAnswer fields with
            | .error e => .error e
            | .ok ans =>
              .ok { filepath := path
                    agent_name := strIfNotNone (pyGet fields "agent_name")
                    provider := strIfNotNone (pyOr (pyGet fields "provider") (pyGet fields "provider_name"))
                    model := model
                    user_prompt := up
                    instructions := instr
                    total_input_tokens := pyIntOf tinJ
                    total_output_tokens := pyIntOf toutJ
                    assistant_answer := ans
                    raw_json := some (.wellFormed (.obj fields)) }
  | some _ => .error ()

/-! ### `evaluator.py` -/

/-- `record.raw_json or "{}"` followed by `json.loads`, observed through
`RawJson`: `none` means the parse raised (caught by the `except`). -/
def rawDoc : Option RawJson → Option Json
  | none => some (.obj [])
  | some .empty => some (.obj [])
  | some .malformed => none
  | some (.wellFormed d) => some d

/-- Part loop of the search-call counter.  Returns the running count and
whether the loop completed (`false` = an exception aborted it, keeping
the count accumulated so far). -/
def partsCount : Nat → List Json → Nat × Bool
  | acc, [] => (acc, true)
  | acc, p :: rest =>
    match p with
    | .obj pf =>
      partsCount
        (if (match pyGet pf "tool_name" with | .str s => s == "search" | _ => false)
         then acc + 1 else acc) rest
    | _ => (acc, false)

/-- Message loop of the search-call counter; any raised exception is
caught by the surrounding `except`, keeping the count so far. -/
def msgsCount : Nat → List Json → Nat
  | acc, [] => acc
  | acc, m :: rest =>
    match m with
    | .obj mf =>
      match orList (pyGetD mf "parts" (.arr [])) with
      | .arr ps =>
        match partsCount acc ps with
        | (acc2, true) => msgsCount acc2 rest
        | (acc2, false) => acc2
      | _ => acc
    | _ => acc

/-- The `search_calls` computation of `RuleBasedEvaluator.evaluate`:
walk `doc.get("messages", [])`, counting parts whose `tool_name` equals
`"search"`; malformed raw JSON or any traversal error yields the count
accumulated when the exception was raised (`0` outside the message
loop). -/
def countSearch : Option Json → Nat
  | none => 0
  | some (.obj f) =>
    (match pyGetD f "messages" (.arr []) with
     | .arr l => msgsCount 0 l
     | _ => 0)
  | some _ => 0

/-- The `answer_clear` pass computation of the evaluator: `≥ 40` tokens
and average sentence length (over `max 1` sentences) `≤ 35`. -/
def answerClearPassed (answer : String) : Bool :=
  let sentences := if pyStrip answer = "" then [] else sentSplit (pyStrip answer)
  let words := pyTokenize answer
  let avg : ℚ :=
    if sentences.isEmpty then 0
    else (words.length : ℚ) / ((max 1 sentences.length : ℕ) : ℚ)
  decide (40 ≤ words.length) && decide (avg ≤ 35)

/-- The evaluator's Jaccard score: `overlap / max(1, |union|)` over the
lower-cased token sets of prompt and answer. -/
def jaccardScore (prompt answer : String) : ℚ :=
  let pT := (pyTokenize prompt).toFinset
  let aT := (pyTokenize answer).toFinset
  (((pT ∩ aT).card : ℕ) : ℚ) / ((max 1 (pT ∪ aT).card : ℕ) : ℚ)

/-- `token_overlap`: the size of the intersection of the token sets. -/
def tokenOverlap (prompt answer : String) : ℕ :=
  ((pyTokenize prompt).toFinset ∩ (pyTokenize answer).toFinset).card

/-- `RuleBasedEvaluator.evaluate(log_id, record)`: a pure total function
returning the seven `CheckResult`s in their fixed order. -/
def evaluate (logId : Int) (rec : LLMLogRecord) : List CheckResult :=
  let prompt := rec.user_prompt.getD ""
  let answer := rec.assistant_answer.getD ""
  let instructions := rec.instructions.getD ""
  let searchCalls := countSearch (rawDoc rec.raw_json)
  let requiresRefs := strContains (lowerStr instructions) "references"
  let hasRefs := strContains (lowerStr answer) "references"
    || strContains answer "http://" || strContains answer "https://"
  let requiresBounds := strContains (lowerStr instructions) "at most 6"
    && strContains (lowerStr instructions) "at least 3"
  let hasLink := strContains answer "http://" || strContains answer "https://"
  [ { log_id := logId, check_name := .instructions_follow
      passed := if requiresRefs then some hasRefs else none },
    { log_id := logId, check_name := .instructions_avoid
      passed := if requiresBounds
                then some (decide (3 ≤ searchCalls) && decide (searchCalls ≤ 6))
                else none },
    { log_id := logId, check_name := .answer_clear
      passed := if answer = "" then none else some (answerClearPassed answer) },
    { log_id := logId, check_name := .answer_match
      passed := if answer ≠ "" ∧ prompt ≠ ""
                then some (decide ((2/25 : ℚ) ≤ jaccardScore prompt answer))
                else none
      score := some (jaccardScore prompt answer) },
    { log_id := logId, check_name := .answer_citations
      passed := if answer = "" then none
                else some (hasLink || strContains (lowerStr answer) "references") },
    { log_id := logId, check_name := .completeness
      passed := if answer = "" then none
                else some (decide (120 ≤ (pyTokenize answer).length) || hasBullets answer) },
    { log_id := logId, check_name := .tool_call_search
      passed := some (decide (0 < searchCalls)) } ]

/-- The unique entry of an evaluation result for a given check kind. -/
def findCheck (l : List CheckResult) (n : CheckName) : Option CheckResult :=
  l.find? (fun c => decide (c.check_name = n))

/-! ### `db.py`

`Database.connect` opens both backends in autocommit
(`sqlite3.connect(..., isolation_level=None)` resp. `conn.autocommit =
True`), so every executed `INSERT` is its own committed unit of work.
The store state is modelled as the committed rows; a statement that the
backend rejects is injected through a failure oracle, and everything
committed before it stays committed. -/

/-- One committed `llm_logs` row. -/
structure LogRow where
  id : Nat
  record : LLMLogRecord

/-- One committed `eval_checks` row; `passed` is normalised to `0/1` for
the SQLite backend (`insert_checks`). -/
structure CheckRow where
  log_id : Int
  check_name : CheckName
  passed01 : Option Int
  score : Option ℚ

/-- Row normalisation performed by `insert_checks`. -/
def toCheckRow (c : CheckResult) : CheckRow :=
  { log_id := c.log_id, check_name := c.check_name
    passed01 := c.passed.map (fun b => if b then 1 else 0), score := c.score }

/-- Committed store state. -/
structure DB where
  logs : List LogRow := []
  checks : List CheckRow := []

/-- `insert_log`: one committed row, returning `lastrowid` (modelled as
`length + 1`, the AUTOINCREMENT id of a store that only inserts). -/
def insertLog (db : DB) (rec : LLMLogRecord) : DB × Nat :=
  (({ db with logs := db.logs ++ [{ id := db.logs.length + 1, record := rec }] } : DB),
   db.logs.length + 1)

/-- The statement loop of `insert_checks`: each `execute` commits on its
own; `failAt = some i` means the backend rejects the `i`-th statement
(the exception propagates, rows `0..i-1` stay committed). -/
def insertChecksGo : DB → Option Nat → Nat → List CheckResult → DB × Bool
  | db, _, _, [] => (db, true)
  | db, failAt, i, c :: rest =>
    if failAt = some i then (db, false)
    else insertChecksGo ({ db with checks := db.checks ++ [toCheckRow c] } : DB) failAt (i + 1) rest

/-- `insert_checks(checks)`: early return on an empty list, otherwise one
committed `INSERT` per check.  The Boolean is `false` when a statement
raised. -/
def insertChecks (db : DB) (checks : List CheckResult) (failAt : Option Nat) : DB × Bool :=
  if checks.isEmpty then (db, true) else insertChecksGo db failAt 0 checks

/-! ### `sources.py` -/

/-- `k` underscore characters prepended to `t`: the successive collision
candidates of `mark_processed`. -/
def usRep : Nat → String → String
  | 0, t => t
  | k + 1, t => "_" ++ usRep k t

/-- The `while target.exists():` loop of `mark_processed`: prepend `"_"`
until the name is free.  The candidates have strictly increasing lengths,
so among the first `|existing| + 1` of them one is free and the fuel
branch is unreachable (`findFree_not_mem` below). -/
def findFreeGo : Nat → List String → String → String
  | 0, _, t => t
  | fuel + 1, ex, t => if t ∈ ex then findFreeGo fuel ex ("_" ++ t) else t

/-- The free target name `mark_processed` renames to. -/
def findFree (ex : List String) (t : String) : String := findFreeGo (ex.length + 1) ex t

/-- One directory entry: name, `is_file()` and the `json.loads`
observation of its content (`none` = unreadable or malformed). -/
structure SFile where
  name : String
  isFile : Bool
  doc : Option Json

/-- `mark_processed(path)` over a directory listing: the first candidate
is `processed_prefix + name`; collisions retry with extra `"_"`.  The
entry is renamed in place (`os.rename`). -/
def markProcessed (es : List SFile) (marker name : String) : String × List SFile :=
  let t := findFree (es.map SFile.name) (marker ++ name)
  (t, es.map fun e => if e.name = name then { e with name := t } else e)

/-- Insertion into a name-sorted listing. -/
def insertByName (e : SFile) : List SFile → List SFile
  | [] => [e]
  | x :: xs => if strLeB e.name x.name then e :: x :: xs else x :: insertByName e xs

/-- `sorted(base.iterdir())` (lexicographic by name). -/
def sortByName : List SFile → List SFile
  | [] => []
  | e :: rest => insertByName e (sortByName rest)

/-- `iter_files`: an absent directory yields nothing; otherwise the
sorted entries that are files, do not carry the processed marker and
match the glob.  `run_once` materialises this snapshot before
processing. -/
def iterFiles (dir : Option (List SFile)) (pattern marker : String) : List SFile :=
  match dir with
  | none => []
  | some es =>
    (sortByName es).filter fun e =>
      e.isFile && !(e.name.startsWith marker) && fnmatchStr e.name pattern

/-! ### `runner.py` -/

/-- The pluggable `genai_prices` backend of `_calc_prices`: `none` models
an unavailable backend or a rejected input. -/
def PriceFn : Type :=
  Option String → Option String → Option Int → Option Int → Option (ℚ × ℚ × ℚ)

/-- Store plus watched directory (`none` = the directory does not
exist). -/
structure World where
  db : DB
  dir : Option (List SFile)

/-- Failure injection for the fallible steps of `process_file`:
`logFail` = the `insert_log` statement raises (nothing committed),
`checksFailAt` = which `insert_checks` statement raises, `markFail` =
`os.rename` raises. -/
structure FailOracle where
  logFail : Bool := false
  checksFailAt : Option Nat := none
  markFail : Bool := false

/-- The price-attachment step of `process_file`. -/
def withPrices (price : PriceFn) (rec : LLMLogRecord) : LLMLogRecord :=
  match price rec.provider rec.model rec.total_input_tokens rec.total_output_tokens with
  | some (ic, oc, tc) =>
    { rec with input_cost := some ic, output_cost := some oc, total_cost := some tc }
  | none => rec

/-- `process_file`: parse → price → `insert_log` → evaluate →
`insert_checks` → `mark_processed`, inside one `try`; any exception is
caught, logged and turned into `None`, leaving all state changes made so
far in place. -/
def processFile (w : World) (marker : String) (price : PriceFn) (f : SFile)
    (o : FailOracle) : World × Option Nat :=
  match parseLogFile f.name f.doc with
  | .error _ => (w, none)
  | .ok rec0 =>
    let rec1 := withPrices price rec0
    if o.logFail then (w, none)
    else
      let (db1, newId) := insertLog w.db rec1
      let checks := evaluate (Int.ofNat newId) rec1
      let (db2, ok) := insertChecks db1 checks o.checksFailAt
      if !ok then ({ w with db := db2 }, none)
      else if o.markFail then ({ w with db := db2 }, none)
      else
        match w.dir with
        | none => (({ db := db2, dir := none } : World), some newId)
        | some es =>
          (({ db := db2, dir := some (markProcessed es marker f.name).2 } : World), some newId)

/-- The per-file loop of a drain, counting successes. -/
def drainGo (marker : String) (price : PriceFn) (oracles : Nat → FailOracle) :
    World → List SFile → Nat → Nat → World × Nat
  | w, [], _, cnt => (w, cnt)
  | w, f :: rest, i, cnt =>
    match processFile w marker price f (oracles i) with
    | (w2, some _) => drainGo marker price oracles w2 rest (i + 1) (cnt + 1)
    | (w2, none) => drainGo marker price oracles w2 rest (i + 1) cnt

/-- `run_once` without the startup/reporting I/O: drain the snapshot of
pending files once and count successes. -/
def drainOnce (w : World) (marker pattern : String) (price : PriceFn)
    (oracles : Nat → FailOracle) : World × Nat :=
  drainGo marker price oracles w (iterFiles w.dir pattern marker) 0 0

/-! ### Specification-side definitions

These follow the wording of the specification (not the code) and are
compared against the embedded functions in the theorems below. -/

/-- A part's string-valued `content`, if any. -/
def partContentStr : Json → Option String
  | .obj pf => (match pyGet pf "content" with | .str c => some c | _ => none)
  | _ => none

/-- The parts list of a message (empty for anything unshaped). -/
def partsOf : Json → List Json
  | .obj mf => (match orList (pyGet mf "parts") with | .arr ps => ps | _ => [])
  | _ => []

/-- The first string-valued content part of a message. -/
def firstStringPart (m : Json) : Option String :=
  (partsOf m).findSome? partContentStr

/-- The last string-valued content part of a message. -/
def lastStringPart (m : Json) : Option String :=
  (partsOf m).reverse.findSome? partContentStr

/-- Modelled from the spec: `the first string-valued content part of the
last message that has one` (the amended fallback-answer rule). -/
def specFirstStringAnswer (msgs : List Json) : Option String :=
  msgs.reverse.findSome? firstStringPart

/-- Modelled from the spec: `the last string-valued content part of the
last message that has one` (the fallback-answer rule as claimed). -/
def specLastStringAnswer (msgs : List Json) : Option String :=
  msgs.reverse.findSome? lastStringPart

/-- Modelled from the spec: `pass iff the answer has ≥40 tokens and its
mean sentence length (tokens per sentence) is ≤35`. -/
def specAnswerClear (a : String) : Bool :=
  decide (40 ≤ (pyTokenize a).length ∧
    ((pyTokenize a).length : ℚ) / ((sentSplit (pyStrip a)).length : ℚ) ≤ 35)

/-- Modelled from the spec: `Jaccard similarity of the lower-cased
alphanumeric token sets` (division by zero is the junk value `0`, the
score the code produces for empty unions). -/
def specJaccard (prompt answer : String) : ℚ :=
  (((pyTokenize prompt).toFinset ∩ (pyTokenize answer).toFinset).card : ℚ) /
  (((pyTokenize prompt).toFinset ∪ (pyTokenize answer).toFinset).card : ℚ)

/-- `k` repetitions of the marker before the name: the target shape the
`markProcessed` claim predicts for collision retries. -/
def repStr : Nat → String → String
  | 0, _ => ""
  | k + 1, m => m ++ repStr k m

/-! ### Concrete fixtures for witnesses and counterexamples -/

/-- An answer of exactly 39 tokens (one sentence). -/
def ans39 : String := String.intercalate " " (List.replicate 39 "a")

/-- 40 tokens in two sentences of 20 (mean 20). -/
def ans40 : String :=
  String.intercalate " " (List.replicate 20 "b") ++ ". " ++
  String.intercalate " " (List.replicate 20 "b")

/-- 70 tokens in two sentences of 35 (mean exactly 35). -/
def ans70 : String :=
  String.intercalate " " (List.replicate 35 "b") ++ ". " ++
  String.intercalate " " (List.replicate 35 "b")

/-- 72 tokens in two sentences of 36 (mean exactly 36). -/
def ans72 : String :=
  String.intercalate " " (List.replicate 36 "b") ++ ". " ++
  String.intercalate " " (List.replicate 36 "b")

/-- A message with two string-content parts, `"A"` then `"B"`. -/
def msgC3 : Json :=
  .obj [("parts", .arr [.obj [("content", .str "A")], .obj [("content", .str "B")]])]

/-- A document with no `output` and the single message `msgC3`. -/
def dC3fields : List (String × Json) := [("messages", .arr [msgC3])]

/-- One structured section for the `output` path. -/
def sec2 : Json := .obj [("heading", .str "H"), ("content", .str "C")]

/-- The `output` object of the structured-answer fixture. -/
def out2 : List (String × Json) := [("title", .str "T"), ("sections", .arr [sec2])]

/-- A document with a structured `output`. -/
def d2fields : List (String × Json) := [("output", .obj out2)]

/-- The record of the `answer_match` scenario. -/
def recCapy : LLMLogRecord :=
  { filepath := "log.json", agent_name := none, provider := none, model := none
    user_prompt := some "capybara habitat", instructions := none
    total_input_tokens := none, total_output_tokens := none
    assistant_answer := some "capybaras live in habitat near rivers"
    raw_json := none }

/-- The record parsed from the empty JSON object. -/
def rec8 : LLMLogRecord :=
  { filepath := "log.json", agent_name := none, provider := none, model := none
    user_prompt := none, instructions := none
    total_input_tokens := none, total_output_tokens := none
    assistant_answer := none, raw_json := some (.wellFormed (.obj [])) }

/-- Two check results for the `insert_checks` fixtures. -/
def chk1 : CheckResult := { log_id := 1, check_name := .instructions_follow, passed := some true }

/-- Second check result for the `insert_checks` fixtures. -/
def chk2 : CheckResult := { log_id := 1, check_name := .instructions_avoid }

/-- An empty store. -/
def dbEmpty : DB := {}

/-- A pending file and an already-marked collision partner (marker
`"P"`). -/
def eFile : SFile := { name := "file", isFile := true, doc := none }

/-- The collision partner `"Pfile"`. -/
def ePfile : SFile := { name := "Pfile", isFile := true, doc := none }

/-- A single pending file for the mark witness. -/
def sfA : SFile := { name := "a.json", isFile := true, doc := none }

/-- A pending file whose content is the empty JSON object. -/
def f10 : SFile := { name := "a.json", isFile := true, doc := some (.obj []) }

/-- World with one pending file and an empty store. -/
def w10 : World := { db := {}, dir := some [f10] }

/-- A pricing backend that is unavailable. -/
def price0 : PriceFn := fun _ _ _ _ => none

/-- A message shaped as the fallback scan expects: a dict whose
(`or []`-normalised) `parts` is a list of dicts. -/
def MsgShaped (m : Json) : Prop :=
  ∃ mf, m = Json.obj mf ∧
    ∃ ps, orList (pyGet mf "parts") = Json.arr ps ∧ ∀ p ∈ ps, ∃ pf, p = Json.obj pf

/-! ### Helper lemmas -/

theorem pyIsSpace_not_word {c : Char} (h : pyIsSpace c = true) : pyIsWord c = false := by
  simp only [pyIsSpace, Bool.or_eq_true, decide_eq_true_eq] at h
  rcases h with ((((rfl | rfl) | rfl) | rfl) | rfl) | rfl <;> decide

theorem toLower_of_space {c : Char} (h : pyIsSpace c = true) : Char.toLower c = c := by
  simp only [pyIsSpace, Bool.or_eq_true, decide_eq_true_eq] at h
  rcases h with ((((rfl | rfl) | rfl) | rfl) | rfl) | rfl <;> decide

theorem tokRuns_nil_of_ws (l : List Char) (h : ∀ c ∈ l, pyIsSpace c = true) :
    tokRuns [] l = [] := by
  induction l with
  | nil => rfl
  | cons c rest ih =>
    have hw : pyIsWord c = false := pyIsSpace_not_word (h c (List.mem_cons_self c rest))
    simp only [tokRuns, hw, Bool.false_eq_true, if_false, List.isEmpty_nil, if_true]
    exact ih fun d hd => h d (List.mem_cons_of_mem c hd)

theorem pyTokenize_nil_of_ws (s : String) (h : ∀ c ∈ s.toList, pyIsSpace c = true) :
    pyTokenize s = [] := by
  apply tokRuns_nil_of_ws
  intro c hc
  simp only [lowerStr, String.toList, String.mk] at hc ⊢
  obtain ⟨d, hd, rfl⟩ := List.mem_map.mp hc
  rw [toLower_of_space (h d hd)]
  exact h d hd

theorem strip_empty_all_ws (s : String) (h : pyStrip s = "") :
    ∀ c ∈ s.toList, pyIsSpace c = true := by
  have hl : stripList s.toList = [] := by
    have := congrArg String.data h
    simpa [pyStrip, String.mk] using this
  unfold stripList at hl
  rw [List.reverse_eq_nil_iff] at hl
  have houter := List.dropWhile_eq_nil_iff.mp hl
  intro c hc
  rcases List.mem_append.mp
      ((List.takeWhile_append_dropWhile (p := pyIsSpace) (l := s.toList)) ▸ hc) with hc1 | hc2
  · exact List.mem_takeWhile_imp hc1
  · exact houter c (List.mem_reverse.mpr hc2)

theorem sentGo_ne_nil (fuel : Nat) : ∀ acc cs, sentGo fuel acc cs ≠ [] := by
  induction fuel with
  | zero => intro acc cs; simp [sentGo]
  | succ n ih =>
    intro acc cs
    cases cs with
    | nil => simp [sentGo]
    | cons c rest =>
      simp only [sentGo]
      split
      · split
        · split
          · simp
          · exact ih _ _
        · simp
      · exact ih _ _

theorem sentSplit_ne_nil (s : String) : sentSplit s ≠ [] := by
  unfold sentSplit
  simp only [ne_eq, List.map_eq_nil_iff]
  exact sentGo_ne_nil _ _ _

theorem answerClear_eq_spec (a : String) : answerClearPassed a = specAnswerClear a := by
  unfold answerClearPassed specAnswerClear
  by_cases hs : pyStrip a = ""
  · have htok : pyTokenize a = [] := pyTokenize_nil_of_ws a (strip_empty_all_ws a hs)
    simp [hs, htok]
  · have hne : sentSplit (pyStrip a) ≠ [] := sentSplit_ne_nil _
    have hlen : 1 ≤ (sentSplit (pyStrip a)).length := List.length_pos.mpr hne
    simp only [hs, if_false, List.isEmpty_eq_true, hne, Nat.max_eq_right hlen,
      Bool.decide_and, ite_false]

theorem jaccard_eq_spec (p a : String) : jaccardScore p a = specJaccard p a := by
  unfold jaccardScore specJaccard
  rcases Nat.eq_zero_or_pos ((pyTokenize p).toFinset ∪ (pyTokenize a).toFinset).card with h | h
  · have hi : ((pyTokenize p).toFinset ∩ (pyTokenize a).toFinset).card = 0 :=
      Nat.le_zero.mp (h ▸ Finset.card_le_card Finset.inter_subset_union)
    simp [h, hi]
  · simp only []
    rw [Nat.max_eq_right h]

theorem insertChecksGo_logs (cs : List CheckResult) :
    ∀ (db : DB) (fa : Option Nat) (i : Nat), (insertChecksGo db fa i cs).1.logs = db.logs := by
  induction cs with
  | nil => intro db fa i; rfl
  | cons c rest ih =>
    intro db fa i
    simp only [insertChecksGo]
    split
    · rfl
    · exact ih _ fa (i + 1)

theorem insertChecksGo_none (cs : List CheckResult) :
    ∀ (db : DB) (i : Nat),
      insertChecksGo db none i cs =
        (({ db with checks := db.checks ++ cs.map toCheckRow } : DB), true) := by
  induction cs with
  | nil => intro db i; simp [insertChecksGo]
  | cons c rest ih =>
    intro db i
    simp only [insertChecksGo, List.map_cons]
    split
    · simp_all
    · rw [ih _ (i + 1)]
      simp

theorem insertChecksGo_fail (cs : List CheckResult) :
    ∀ (db : DB) (i j : Nat), j < cs.length →
      insertChecksGo db (some (i + j)) i cs =
        (({ db with checks := db.checks ++ (cs.take j).map toCheckRow } : DB), false) := by
  induction cs with
  | nil => intro db i j h; simp at h
  | cons c rest ih =>
    intro db i j h
    cases j with
    | zero =>
      simp only [insertChecksGo, Nat.add_zero, List.take_zero, List.map_nil, List.append_nil]
      simp
    | succ j2 =>
      simp only [insertChecksGo]
      have hne : some (i + (j2 + 1)) = some i ↔ False := by
        simp only [Option.some.injEq, iff_false]
        omega
      rw [if_neg (by simp [hne] : ¬some (i + (j2 + 1)) = some i)]
      have := ih ({ db with checks := db.checks ++ [toCheckRow c] } : DB) (i + 1) j2
        (by simpa using Nat.lt_of_succ_lt_succ (by simpa using h))
      rw [show i + 1 + j2 = i + (j2 + 1) by omega] at this
      rw [this]
      simp [List.take_succ_cons]

theorem insertChecks_fail (db : DB) (cs : List CheckResult) (j : Nat) (h : j < cs.length) :
    insertChecks db cs (some j) =
      (({ db with checks := db.checks ++ (cs.take j).map toCheckRow } : DB), false) := by
  unfold insertChecks
  have hne : cs.isEmpty = false := by
    cases cs with
    | nil => simp at h
    | cons a l => rfl
  rw [hne]
  simpa using insertChecksGo_fail cs db 0 j h

theorem insertChecks_none (db : DB) (cs : List CheckResult) :
    insertChecks db cs none =
      (({ db with checks := db.checks ++ cs.map toCheckRow } : DB), true) := by
  unfold insertChecks
  cases cs with
  | nil => simp
  | cons a l => simpa using insertChecksGo_none (a :: l) db 0

theorem usRep_shift (k : Nat) (t : String) : usRep k ("_" ++ t) = "_" ++ usRep k t := by
  induction k with
  | zero => rfl
  | succ n ih => simp only [usRep, ih]

theorem usRep_length (k : Nat) (t : String) : (usRep k t).length = k + t.length := by
  induction k with
  | zero => simp [usRep]
  | succ n ih =>
    simp only [usRep, String.length_append, ih]
    have : ("_" : String).length = 1 := rfl
    omega

theorem exists_free (ex : List String) (t : String) :
    ∃ k, k ≤ ex.length ∧ usRep k t ∉ ex := by
  by_contra hcon
  push_neg at hcon
  have hinj : Set.InjOn (fun k => usRep k t) (Finset.range (ex.length + 1)) := by
    intro x _ y _ hxy
    have := congrArg String.length hxy
    simpa [usRep_length] using this
  have hsub : (Finset.range (ex.length + 1)).image (fun k => usRep k t) ⊆ ex.toFinset := by
    intro s hs
    obtain ⟨k, hk, rfl⟩ := Finset.mem_image.mp hs
    exact List.mem_toFinset.mpr (hcon k (by simpa using Nat.lt_succ_iff.mp (Finset.mem_range.mp hk)))
  have hcard := Finset.card_le_card hsub
  rw [Finset.card_image_of_injOn hinj, Finset.card_range] at hcard
  have hlen := ex.toFinset_card_le
  omega

theorem findFreeGo_spec (fuel : Nat) :
    ∀ (ex : List String) (t : String), (∃ k, k < fuel ∧ usRep k t ∉ ex) →
      findFreeGo fuel ex t ∉ ex ∧ ∃ k, findFreeGo fuel ex t = usRep k t := by
  induction fuel with
  | zero =>
    intro ex t h
    obtain ⟨k, hk, _⟩ := h
    omega
  | succ n ih =>
    intro ex t h
    obtain ⟨k, hk, hnot⟩ := h
    by_cases ht : t ∈ ex
    · have hk0 : k ≠ 0 := by rintro rfl; exact hnot ht
      obtain ⟨k2, rfl⟩ := Nat.exists_eq_succ_of_ne_zero hk0
      have h2 : usRep k2 ("_" ++ t) ∉ ex := by
        rw [usRep_shift]
        simpa [usRep] using hnot
      have hrec := ih ex ("_" ++ t) ⟨k2, by omega, h2⟩
      simp only [findFreeGo, ht, if_true]
      refine ⟨hrec.1, ?_⟩
      obtain ⟨k3, hk3⟩ := hrec.2
      exact ⟨k3 + 1, by rw [hk3, usRep_shift]; rfl⟩
    · simp only [findFreeGo, ht, if_false]
      exact ⟨not_false, 0, rfl⟩

theorem findFree_spec (ex : List String) (t : String) :
    findFree ex t ∉ ex ∧ ∃ k, findFree ex t = usRep k t := by
  obtain ⟨k, hk, hno⟩ := exists_free ex t
  exact findFreeGo_spec (ex.length + 1) ex t ⟨k, by omega, hno⟩

theorem repStr_length (k : Nat) (m : String) : (repStr k m).length = k * m.length := by
  induction k with
  | zero => simp [repStr]
  | succ n ih =>
    simp only [repStr, String.length_append, ih]
    ring

theorem withPrices_filepath (price : PriceFn) (rec : LLMLogRecord) :
    (withPrices price rec).filepath = rec.filepath := by
  unfold withPrices
  split <;> rfl

theorem parseLogFile_filepath (path : String) (c : Option Json) (rec : LLMLogRecord)
    (h : parseLogFile path c = .ok rec) : rec.filepath = path := by
  unfold parseLogFile at h
  split at h
  · exact (Except.noConfusion h)
  · split at h
    · exact (Except.noConfusion h)
    · split at h
      · exact (Except.noConfusion h)
      · split at h
        · exact (Except.noConfusion h)
        · split at h
          · exact (Except.noConfusion h)
          · split at h
            · exact (Except.noConfusion h)
            · rw [← Except.ok.inj h]
  · exact (Except.noConfusion h)

theorem partScanAny_spec (ps : List Json) (h : ∀ p ∈ ps, ∃ pf, p = Json.obj pf) :
    partScanAny ps = .ok (ps.findSome? partContentStr) := by
  induction ps with
  | nil => rfl
  | cons p rest ih =>
    obtain ⟨pf, rfl⟩ := h p (List.mem_cons_self p rest)
    have hrest := ih fun q hq => h q (List.mem_cons_of_mem _ hq)
    cases hc : pyGet pf "content" with
    | str c => simp [partScanAny, List.findSome?_cons, partContentStr, hc]
    | null => simp [partScanAny, List.findSome?_cons, partContentStr, hc, hrest]
    | bool b => simp [partScanAny, List.findSome?_cons, partContentStr, hc, hrest]
    | int n => simp [partScanAny, List.findSome?_cons, partContentStr, hc, hrest]
    | float q => simp [partScanAny, List.findSome?_cons, partContentStr, hc, hrest]
    | arr l => simp [partScanAny, List.findSome?_cons, partContentStr, hc, hrest]
    | obj f2 => simp [partScanAny, List.findSome?_cons, partContentStr, hc, hrest]

theorem fbScan_spec (ms : List Json) (h : ∀ m ∈ ms, MsgShaped m) :
    fbScan ms = .ok (ms.findSome? firstStringPart) := by
  induction ms with
  | nil => rfl
  | cons m rest ih =>
    obtain ⟨mf, rfl, ps, hps, hall⟩ := h m (List.mem_cons_self m rest)
    have hrest := ih fun q hq => h q (List.mem_cons_of_mem _ hq)
    have hfirst : firstStringPart (Json.obj mf) = ps.findSome? partContentStr := by
      simp [firstStringPart, partsOf, hps]
    simp only [fbScan, hps, partScanAny_spec ps hall, List.findSome?_cons, hfirst]
    cases hfs : ps.findSome? partContentStr with
    | some s => simp
    | none => simpa using hrest

theorem findCheck_answer_clear (logId : Int) (rec : LLMLogRecord) :
    findCheck (evaluate logId rec) .answer_clear =
      some { log_id := logId, check_name := .answer_clear,
             passed := if rec.assistant_answer.getD "" = "" then none
                       else some (answerClearPassed (rec.assistant_answer.getD "")),
             score := none } := rfl

theorem findCheck_answer_match (logId : Int) (rec : LLMLogRecord) :
    findCheck (evaluate logId rec) .answer_match =
      some { log_id := logId, check_name := .answer_match,
             passed := if rec.assistant_answer.getD "" ≠ "" ∧ rec.user_prompt.getD "" ≠ ""
                       then some (decide ((2/25 : ℚ) ≤
                         jaccardScore (rec.user_prompt.getD "") (rec.assistant_answer.getD "")))
                       else none,
             score := some (jaccardScore (rec.user_prompt.getD "")
                       (rec.assistant_answer.getD "")) } := rfl

/-! ### Claim theorems -/

/-- C1: for every `LLMLogRecord` (any combination of null/non-null
prompt, instructions, answer, and any raw JSON observation, including
malformed), `RuleBasedEvaluator.evaluate` returns exactly seven
`CheckResult`s in the fixed order `instructions_follow`,
`instructions_avoid`, `answer_clear`, `answer_match`, `answer_citations`,
`completeness`, `tool_call_search`.  Being a total Lean function of
`logId` and `rec`, the embedded `evaluate` is a pure function of its
arguments and never raises. -/
theorem C1_evaluate_seven_checks :
    ∀ (logId : Int) (rec : LLMLogRecord),
      (evaluate logId rec).map CheckResult.check_name =
        [.instructions_follow, .instructions_avoid, .answer_clear, .answer_match,
         .answer_citations, .completeness, .tool_call_search]
      ∧ (evaluate logId rec).length = 7 :=
  fun _ _ => ⟨rfl, rfl⟩

/-- C2: for every parsed document whose top-level `output` is an object
with a string `title` and a `sections` list of objects with string
`heading` and `content`, the extracted answer is the title followed by
each section's heading and content, in document order, blank-line
joined. -/
theorem C2_structured_answer (fields o : List (String × Json)) (t : String)
    (secs : List Json) (pairs : List (String × String))
    (hout : pyGet fields "output" = .obj o)
    (ht : pyGet o "title" = .str t)
    (hs : pyGet o "sections" = .arr secs)
    (hsecs : List.Forall₂ (fun s p => ∃ sf, s = Json.obj sf ∧
        pyGet sf "heading" = .str p.1 ∧ pyGet sf "content" = .str p.2) secs pairs) :
    extractAnswer fields =
      .ok (some (String.intercalate "\n\n" (t :: pairs.flatMap fun p => [p.1, p.2]))) := by
  have hflat : secs.flatMap (fun s =>
      match s with
      | Json.obj sf =>
        (match pyGet sf "heading" with | .str h => [h] | _ => []) ++
        (match pyGet sf "content" with | .str c => [c] | _ => [])
      | _ => []) = pairs.flatMap (fun p => [p.1, p.2]) := by
    clear hout hs ht
    induction hsecs with
    | nil => rfl
    | cons hsp _ ih =>
      obtain ⟨sf, rfl, hh, hc⟩ := hsp
      simp [hh, hc, ih]
  have hchunks : outputChunks o = t :: pairs.flatMap (fun p => [p.1, p.2]) := by
    unfold outputChunks
    rw [ht, hs]
    dsimp only
    rw [hflat]
    rfl
  unfold extractAnswer
  rw [hout]
  simp [hchunks]

/-- C2 witness: a concrete document with title `"T"` and one section
`("H", "C")` extracts to `"T\n\nH\n\nC"`. -/
theorem C2_structured_answer_witness :
    extractAnswer d2fields = .ok (some "T\n\nH\n\nC") := by
  have h := C2_structured_answer d2fields out2 "T" [sec2] [("H", "C")] rfl rfl rfl
    (List.Forall₂.cons ⟨_, rfl, rfl, rfl⟩ List.Forall₂.nil)
  exact h

/-- C3 counterexample: a document with no `output` whose single message
has string parts `"A"` then `"B"`.  The fallback extraction returns
`"A"` (the first string-valued content part), while the claim's rule
`the last string-valued content part of the last message` names `"B"`. -/
theorem C3_counterexample :
    extractAnswer dC3fields = .ok (some "A")
    ∧ specLastStringAnswer [msgC3] = some "B"
    ∧ (Except.ok (some "A") : Except Unit (Option String)) ≠ .ok (some "B") :=
  ⟨rfl, rfl, fun h => absurd (Option.some.inj (Except.ok.inj h)) (by decide)⟩

/-- C3 amended: for every parsed document with no usable top-level
`output` (missing, non-object, or contributing no chunks) and
well-shaped messages, the extracted answer is the FIRST string-valued
content part of the last message that has one; if no message part has
string content, the answer is null (`specFirstStringAnswer` returns
`none` then). -/
theorem C3_fallback_first_of_last (fields : List (String × Json)) (msgs : List Json)
    (hmsgs : orList (pyGet fields "messages") = .arr msgs)
    (hout : ∀ o, pyGet fields "output" = Json.obj o → outputChunks o = [])
    (hshape : ∀ m ∈ msgs, MsgShaped m) :
    extractAnswer fields = .ok (specFirstStringAnswer msgs) := by
  have hfb : extractFallback fields = .ok (specFirstStringAnswer msgs) := by
    unfold extractFallback
    rw [hmsgs]
    dsimp only
    rw [fbScan_spec msgs.reverse (fun m hm => hshape m (List.mem_reverse.mp hm))]
    rfl
  unfold extractAnswer
  split
  next o heq => simp [hout o heq, hfb]
  next heq => exact hfb

/-- C3 witness for the amended rule, on the counterexample document:
the fallback answer is the first string part `"A"` of the last (only)
message. -/
theorem C3_fallback_witness :
    extractAnswer dC3fields = .ok (some "A") ∧ specFirstStringAnswer [msgC3] = some "A" := by
  constructor
  · exact C3_fallback_first_of_last dC3fields [msgC3] rfl
      (fun o h => Json.noConfusion h)
      (by
        intro m hm
        have hm2 : m = msgC3 := by simpa using hm
        subst hm2
        refine ⟨_, rfl, [Json.obj [("content", Json.str "A")], Json.obj [("content", Json.str "B")]], rfl, ?_⟩
        intro p hp
        rcases (by simpa using hp : p = Json.obj [("content", Json.str "A")] ∨
            p = Json.obj [("content", Json.str "B")]) with rfl | rfl
        · exact ⟨_, rfl⟩
        · exact ⟨_, rfl⟩)
  · rfl

/-- C4 counterexample: with marker `"P"` and existing names `file`,
`Pfile`, the collision retry produces `_Pfile` — an extra underscore,
not an extra marker repetition, so the result is not of the claimed form
`marker^k ++ name` for any `k`. -/
theorem C4_counterexample :
    (markProcessed [eFile, ePfile] "P" "file").1 = "_Pfile"
    ∧ ¬ ∃ k, (markProcessed [eFile, ePfile] "P" "file").1 = repStr k "P" ++ "file" := by
  have h1 : (markProcessed [eFile, ePfile] "P" "file").1 = "_Pfile" := by decide
  refine ⟨h1, ?_⟩
  rintro ⟨k, hk⟩
  rw [h1] at hk
  have hlen := congrArg String.length hk
  rw [String.length_append, repStr_length] at hlen
  have h6 : ("_Pfile" : String).length = 6 := rfl
  have h4 : ("file" : String).length = 4 := rfl
  have h1p : ("P" : String).length = 1 := rfl
  rw [h6, h4, h1p] at hlen
  have hk2 : k = 2 := by omega
  subst hk2
  exact absurd hk (by decide)

/-- C4 corrected: `mark_processed` renames the file by prepending the
marker once; a collision is retried by prepending additional underscore
characters (not the marker) until a free name is found.  The loop always
terminates on a name free in the listing, no other entry is touched, the
file survives with its content, and a second marking of the renamed file
again succeeds with a fresh distinct name — never losing the file and
never throwing. -/
theorem C4_mark_processed (es : List SFile) (marker : String) (f : SFile) (hf : f ∈ es) :
    (∃ k, (markProcessed es marker f.name).1 = usRep k (marker ++ f.name))
    ∧ (markProcessed es marker f.name).1 ∉ es.map SFile.name
    ∧ (∃ g, g ∈ (markProcessed es marker f.name).2 ∧
        g.name = (markProcessed es marker f.name).1 ∧ g.doc = f.doc)
    ∧ (∀ g, g ∈ es → g.name ≠ f.name → g ∈ (markProcessed es marker f.name).2)
    ∧ (markProcessed (markProcessed es marker f.name).2 marker
        (markProcessed es marker f.name).1).1 ∉
          ((markProcessed es marker f.name).2.map SFile.name)
    ∧ (∃ g, g ∈ (markProcessed (markProcessed es marker f.name).2 marker
          (markProcessed es marker f.name).1).2 ∧ g.doc = f.doc) := by
  have hspec := findFree_spec (es.map SFile.name) (marker ++ f.name)
  simp only [markProcessed]
  set t1 := findFree (es.map SFile.name) (marker ++ f.name) with ht1
  set es1 := es.map (fun e => if e.name = f.name then ({ e with name := t1 } : SFile) else e)
    with hes1
  set t2 := findFree (es1.map SFile.name) (marker ++ t1) with ht2
  have hmem1 : ({ f with name := t1 } : SFile) ∈ es1 := by
    rw [hes1]
    have := List.mem_map_of_mem
      (fun e => if e.name = f.name then ({ e with name := t1 } : SFile) else e) hf
    simpa using this
  refine ⟨hspec.2, hspec.1, ?_, ?_, ?_, ?_⟩
  · exact ⟨_, hmem1, rfl, rfl⟩
  · intro g hg hne
    rw [hes1]
    have := List.mem_map_of_mem
      (fun e => if e.name = f.name then ({ e with name := t1 } : SFile) else e) hg
    simpa [hne] using this
  · exact (findFree_spec _ _).1
  · have h2 := List.mem_map_of_mem
      (fun e => if e.name = t1 then ({ e with name := t2 } : SFile) else e) hmem1
    refine ⟨({ f with name := t2 } : SFile), ?_, rfl⟩
    simpa using h2

/-- C4 witness: marking the single pending file `a.json` with the
default marker `"_"` succeeds with a name of the underscore-retry form
that is free in the listing. -/
theorem C4_mark_processed_witness :
    (∃ k, (markProcessed [sfA] "_" sfA.name).1 = usRep k ("_" ++ sfA.name))
    ∧ (markProcessed [sfA] "_" sfA.name).1 ∉ ([sfA].map SFile.name) := by
  have h := C4_mark_processed [sfA] "_" sfA (List.mem_singleton.mpr rfl)
  exact ⟨h.1, h.2.1⟩

/-- C5 counterexample: inserting two checks where the second statement
fails leaves the first check row committed — the call is not
all-or-nothing. -/
theorem C5_counterexample :
    (insertChecks dbEmpty [chk1, chk2] (some 1)).2 = false
    ∧ (insertChecks dbEmpty [chk1, chk2] (some 1)).1.checks = [toCheckRow chk1]
    ∧ (insertChecks dbEmpty [chk1, chk2] (some 1)).1.checks ≠ [] := by
  refine ⟨rfl, rfl, ?_⟩
  intro h
  exact List.noConfusion h

/-- C5 corrected: `insert_checks` is a no-op on an empty sequence; for a
non-empty sequence each insert is committed individually (the
connections are opened in autocommit), so when the `j`-th statement
fails the `j` rows already executed remain persisted, and when no
statement fails all rows are persisted. -/
theorem C5_insert_checks (db : DB) (cs : List CheckResult) (failAt : Option Nat) (j : Nat)
    (hj : j < cs.length) :
    insertChecks db [] failAt = (db, true)
    ∧ insertChecks db cs none = (({ db with checks := db.checks ++ cs.map toCheckRow } : DB), true)
    ∧ insertChecks db cs (some j) =
        (({ db with checks := db.checks ++ (cs.take j).map toCheckRow } : DB), false) :=
  ⟨rfl, insertChecks_none db cs, insertChecks_fail db cs j hj⟩

/-- C5 witness: the corrected behaviour at the concrete two-check call
failing on statement 1. -/
theorem C5_insert_checks_witness :
    insertChecks dbEmpty [chk1, chk2] (some 1) =
      (({ dbEmpty with checks := [toCheckRow chk1] } : DB), false) := by
  have h := C5_insert_checks dbEmpty [chk1, chk2] (some 1) 1 (by decide)
  simpa using h.2.2

set_option maxRecDepth 40000 in
/-- C6: for every record, the `answer_clear` entry of the evaluation is
not-applicable exactly when the answer is absent or empty, and otherwise
passes iff the answer has at least 40 tokens and its mean sentence
length (tokens divided by sentences, split on `.`/`!`/`?` followed by
whitespace) is at most 35.  Concretely: 39 tokens fail; 40 tokens in two
short sentences pass; mean sentence length exactly 35 passes and exactly
36 fails at the 70/72-token two-sentence boundary instances. -/
theorem C6_answer_clear :
    (∀ (logId : Int) (rec : LLMLogRecord),
      (findCheck (evaluate logId rec) .answer_clear).map CheckResult.passed =
        some (if rec.assistant_answer.getD "" = "" then none
              else some (specAnswerClear (rec.assistant_answer.getD ""))))
    ∧ ((pyTokenize ans39).length = 39 ∧ specAnswerClear ans39 = false)
    ∧ ((pyTokenize ans40).length = 40 ∧ specAnswerClear ans40 = true)
    ∧ ((pyTokenize ans70).length = 70 ∧ (sentSplit (pyStrip ans70)).length = 2
        ∧ specAnswerClear ans70 = true)
    ∧ ((pyTokenize ans72).length = 72 ∧ (sentSplit (pyStrip ans72)).length = 2
        ∧ specAnswerClear ans72 = false) := by
  have h39 : (pyTokenize ans39).length = 39 := by decide
  have h39s : specAnswerClear ans39 = false := by
    unfold specAnswerClear
    rw [h39]
    simp only [decide_eq_false_iff_not]
    intro h
    exact absurd h.1 (by norm_num)
  have h40 : (pyTokenize ans40).length = 40 := by decide
  have h40sent : (sentSplit (pyStrip ans40)).length = 2 := by decide
  have h40s : specAnswerClear ans40 = true := by
    unfold specAnswerClear
    rw [h40, h40sent, decide_eq_true_eq]
    norm_num
  have h70 : (pyTokenize ans70).length = 70 := by decide
  have h70sent : (sentSplit (pyStrip ans70)).length = 2 := by decide
  have h70s : specAnswerClear ans70 = true := by
    unfold specAnswerClear
    rw [h70, h70sent, decide_eq_true_eq]
    norm_num
  have h72 : (pyTokenize ans72).length = 72 := by decide
  have h72sent : (sentSplit (pyStrip ans72)).length = 2 := by decide
  have h72s : specAnswerClear ans72 = false := by
    unfold specAnswerClear
    rw [h72, h72sent]
    simp only [decide_eq_false_iff_not]
    intro h
    have := h.2
    norm_num at this
  refine ⟨?_, ⟨h39, h39s⟩, ⟨h40, h40s⟩, ⟨h70, h70sent, h70s⟩, ⟨h72, h72sent, h72s⟩⟩
  intro logId rec
  rw [findCheck_answer_clear]
  simp [answerClear_eq_spec]

/-- C7 counterexample: for prompt `capybara habitat` and answer
`capybaras live in habitat near rivers` the token overlap is 1 (only
`habitat`; `capybara` and `capybaras` are distinct tokens), not ≥ 2 as
claimed. -/
theorem C7_counterexample :
    tokenOverlap "capybara habitat" "capybaras live in habitat near rivers" = 1
    ∧ ¬ (2 ≤ tokenOverlap "capybara habitat" "capybaras live in habitat near rivers") := by
  have h : tokenOverlap "capybara habitat" "capybaras live in habitat near rivers" = 1 := by
    decide
  exact ⟨h, by rw [h]; omega⟩

/-- C7 corrected: `answer_match` is applicable only when both prompt and
answer are non-empty; its score is the Jaccard similarity of the
lower-cased token sets and it passes iff that score is ≥ 0.08 (= 2/25).
In the scenario the token overlap is 1 (not ≥ 2), the Jaccard is 1/7 ≥
0.08, and the check passes. -/
theorem C7_answer_match :
    (∀ (logId : Int) (rec : LLMLogRecord),
      findCheck (evaluate logId rec) .answer_match =
        some { log_id := logId, check_name := .answer_match,
               passed := if rec.assistant_answer.getD "" ≠ "" ∧ rec.user_prompt.getD "" ≠ ""
                         then some (decide ((2/25 : ℚ) ≤
                           specJaccard (rec.user_prompt.getD "") (rec.assistant_answer.getD "")))
                         else none,
               score := some (specJaccard (rec.user_prompt.getD "")
                         (rec.assistant_answer.getD "")) })
    ∧ tokenOverlap "capybara habitat" "capybaras live in habitat near rivers" = 1
    ∧ specJaccard "capybara habitat" "capybaras live in habitat near rivers" = 1/7
    ∧ (2/25 : ℚ) ≤ 1/7
    ∧ (findCheck (evaluate 1 recCapy) .answer_match).map CheckResult.passed =
        some (some true) := by
  have hcards : specJaccard "capybara habitat" "capybaras live in habitat near rivers"
      = 1/7 := by
    unfold specJaccard
    rw [show (((pyTokenize "capybara habitat").toFinset ∩
        (pyTokenize "capybaras live in habitat near rivers").toFinset).card : ℕ) = 1 by decide]
    rw [show (((pyTokenize "capybara habitat").toFinset ∪
        (pyTokenize "capybaras live in habitat near rivers").toFinset).card : ℕ) = 7 by decide]
    norm_num
  have hov : tokenOverlap "capybara habitat" "capybaras live in habitat near rivers" = 1 := by
    decide
  refine ⟨?_, hov, hcards, by norm_num, ?_⟩
  · intro logId rec
    rw [findCheck_answer_match]
    simp [jaccard_eq_spec]
  · rw [findCheck_answer_match]
    have hj : jaccardScore (recCapy.user_prompt.getD "") (recCapy.assistant_answer.getD "")
        = 1/7 := by
      rw [jaccard_eq_spec]
      exact hcards
    simp only [Option.map_some']
    rw [if_pos ⟨by simp [recCapy], by simp [recCapy]⟩, hj]
    norm_num

theorem orObj_obj (uf : List (String × Json)) : orObj (.obj uf) = .obj uf := by
  unfold orObj pyTruthy
  cases uf with
  | nil => rfl
  | cons a l => rfl

theorem pyIntOf_eq_none (v : Json) (h : pyIsInt v = false) : pyIntOf v = none := by
  cases v <;> simp_all [pyIsInt, pyIntOf]

theorem parseLogFile_tokens (path : String) (fields : List (String × Json))
    (rec : LLMLogRecord) (h : parseLogFile path (some (.obj fields)) = .ok rec) :
    ∃ tin tout, getTotalUsage fields = .ok (tin, tout) ∧
      rec.total_input_tokens = pyIntOf tin ∧ rec.total_output_tokens = pyIntOf tout := by
  simp only [parseLogFile] at h
  split at h
  · exact Except.noConfusion h
  · split at h
    · exact Except.noConfusion h
    · split at h
      · exact Except.noConfusion h
      · split at h
        · exact Except.noConfusion h
        · split at h
          · exact Except.noConfusion h
          · obtain rfl : _ = rec := Except.ok.inj h
            exact ⟨_, _, by assumption, rfl, rfl⟩

/-- C8: for every parsed document, a missing (or JSON-null — Python does
not distinguish) top-level `usage` yields null token counts in the
resulting record, and a `usage` object value of `input_tokens` or
`output_tokens` that is not a Python integer yields a null count for
that field rather than an error. -/
theorem C8_usage_null_not_zero (fields : List (String × Json)) (path : String)
    (rec : LLMLogRecord) (hparse : parseLogFile path (some (.obj fields)) = .ok rec) :
    (pyGet fields "usage" = .null →
       rec.total_input_tokens = none ∧ rec.total_output_tokens = none)
    ∧ (∀ uf, pyGet fields "usage" = .obj uf →
       (pyIsInt (pyGet uf "input_tokens") = false → rec.total_input_tokens = none)
       ∧ (pyIsInt (pyGet uf "output_tokens") = false → rec.total_output_tokens = none)) := by
  obtain ⟨tin, tout, hTot, hin, hout⟩ := parseLogFile_tokens path fields rec hparse
  constructor
  · intro hnull
    unfold getTotalUsage at hTot
    rw [hnull] at hTot
    have hTot2 : (Except.ok (Json.null, Json.null) : Except Unit (Json × Json)) =
        .ok (tin, tout) := hTot
    have h1 := Except.ok.inj hTot2
    have h2 : Json.null = tin := congrArg Prod.fst h1
    have h3 : Json.null = tout := congrArg Prod.snd h1
    rw [hin, hout, ← h2, ← h3]
    exact ⟨rfl, rfl⟩
  · intro uf hobj
    unfold getTotalUsage at hTot
    rw [hobj, orObj_obj] at hTot
    have hTot2 : (Except.ok (pyGet uf "input_tokens", pyGet uf "output_tokens") :
        Except Unit (Json × Json)) = .ok (tin, tout) := hTot
    have h1 := Except.ok.inj hTot2
    have h2 : pyGet uf "input_tokens" = tin := congrArg Prod.fst h1
    have h3 : pyGet uf "output_tokens" = tout := congrArg Prod.snd h1
    constructor
    · intro hni
      rw [hin, ← h2]
      exact pyIntOf_eq_none _ hni
    · intro hno
      rw [hout, ← h3]
      exact pyIntOf_eq_none _ hno

/-- C8 witness: the empty JSON object parses with null token counts. -/
theorem C8_usage_witness :
    rec8.total_input_tokens = none ∧ rec8.total_output_tokens = none :=
  (C8_usage_null_not_zero [] "log.json" rec8 rfl).1 rfl

/-- C9: a missing watched directory makes `iter_files` yield the empty
sequence without error, so a drain over it completes normally with zero
files processed and no exception surfaces. -/
theorem C9_missing_directory :
    ∀ (db : DB) (marker pattern : String) (price : PriceFn) (oracles : Nat → FailOracle),
      iterFiles none pattern marker = []
      ∧ drainOnce ({ db := db, dir := none } : World) marker pattern price oracles =
          (({ db := db, dir := none } : World), 0) :=
  fun _ _ _ _ _ => ⟨rfl, rfl⟩

theorem insertChecksGo_past (cs : List CheckResult) :
    ∀ (db : DB) (i k : Nat), i + cs.length ≤ k →
      insertChecksGo db (some k) i cs =
        (({ db with checks := db.checks ++ cs.map toCheckRow } : DB), true) := by
  induction cs with
  | nil => intro db i k _; simp [insertChecksGo]
  | cons c rest ih =>
    intro db i k hk
    simp only [insertChecksGo, List.map_cons]
    rw [if_neg (by
      simp only [Option.some.injEq]
      intro h
      subst h
      simp only [List.length_cons] at hk
      omega)]
    rw [ih ({ db with checks := db.checks ++ [toCheckRow c] } : DB) (i + 1) k
      (by simp only [List.length_cons] at hk; omega)]
    simp

theorem insertChecks_past (db : DB) (cs : List CheckResult) (j : Nat) (hj : cs.length ≤ j) :
    insertChecks db cs (some j) =
      (({ db with checks := db.checks ++ cs.map toCheckRow } : DB), true) := by
  unfold insertChecks
  cases cs with
  | nil => simp
  | cons a l => simpa using insertChecksGo_past (a :: l) db 0 j (by simpa using hj)

theorem processFile_fail_shape (w : World) (marker : String) (price : PriceFn) (f : SFile)
    (o : FailOracle) (rec : LLMLogRecord) (db2 : DB) (okFlag : Bool)
    (hparse : parseLogFile f.name f.doc = .ok rec)
    (hlog : o.logFail = false)
    (hic : insertChecks ((insertLog w.db (withPrices price rec)).1)
        (evaluate (Int.ofNat ((insertLog w.db (withPrices price rec)).2)) (withPrices price rec))
        o.checksFailAt = (db2, okFlag))
    (hstop : okFlag = false ∨ o.markFail = true) :
    processFile w marker price f o = (({ w with db := db2 } : World), none) := by
  unfold processFile
  rw [hparse]
  simp only [hlog, Bool.false_eq_true, if_false]
  rw [hic]
  rcases hstop with hok | hmark
  · subst hok
    rfl
  · cases okFlag with
    | false => rfl
    | true => simp [hmark]

theorem processFile_benign (w : World) (marker : String) (price : PriceFn) (f : SFile)
    (rec : LLMLogRecord) (hparse : parseLogFile f.name f.doc = .ok rec) :
    (processFile w marker price f ({} : FailOracle)).2 = some (w.db.logs.length + 1)
    ∧ (processFile w marker price f ({} : FailOracle)).1.db.logs =
        w.db.logs ++ [{ id := w.db.logs.length + 1, record := withPrices price rec }] := by
  unfold processFile
  rw [hparse]
  dsimp only [insertLog]
  rw [insertChecks_none]
  cases w.dir with
  | none => exact ⟨rfl, rfl⟩
  | some es => exact ⟨rfl, rfl⟩

/-- C10: when parsing succeeds and `insert_log` commits but a later step
(`insert_checks` or `mark_processed`) raises, `process_file` catches the
exception and returns `None`: the log row stays persisted (autocommit,
no rollback), the file is not renamed and stays pending in the listing,
and re-processing the same file on the next drain succeeds and leaves a
second (duplicate) log row for the same filepath. -/
theorem C10_insert_then_fail (w : World) (f : SFile) (marker pattern : String)
    (price : PriceFn) (o : FailOracle) (rec : LLMLogRecord)
    (hparse : parseLogFile f.name f.doc = .ok rec)
    (hlog : o.logFail = false)
    (hfail : o.markFail = true ∨ ∃ j, o.checksFailAt = some j ∧ j < 7) :
    (processFile w marker price f o).2 = none
    ∧ (processFile w marker price f o).1.db.logs =
        w.db.logs ++ [{ id := w.db.logs.length + 1, record := withPrices price rec }]
    ∧ (processFile w marker price f o).1.dir = w.dir
    ∧ (f ∈ iterFiles w.dir pattern marker →
        f ∈ iterFiles (processFile w marker price f o).1.dir pattern marker)
    ∧ (processFile (processFile w marker price f o).1 marker price f ({} : FailOracle)).2 =
        some (w.db.logs.length + 2)
    ∧ (processFile (processFile w marker price f o).1 marker price f
          ({} : FailOracle)).1.db.logs.countP (fun r => r.record.filepath == f.name) =
        w.db.logs.countP (fun r => r.record.filepath == f.name) + 2 := by
  have hex : ∃ db2 : DB,
      processFile w marker price f o = (({ w with db := db2 } : World), none)
      ∧ db2.logs =
          w.db.logs ++ [{ id := w.db.logs.length + 1, record := withPrices price rec }] := by
    rcases hco : o.checksFailAt with _ | j
    · have hmark : o.markFail = true := by
        rcases hfail with h | ⟨j, hj, _⟩
        · exact h
        · rw [hco] at hj; exact Option.noConfusion hj
      have hic : insertChecks ((insertLog w.db (withPrices price rec)).1)
          (evaluate (Int.ofNat ((insertLog w.db (withPrices price rec)).2))
            (withPrices price rec)) o.checksFailAt =
          (({ (insertLog w.db (withPrices price rec)).1 with
              checks := ((insertLog w.db (withPrices price rec)).1).checks ++
                (evaluate (Int.ofNat ((insertLog w.db (withPrices price rec)).2))
                  (withPrices price rec)).map toCheckRow } : DB), true) := by
        rw [hco]
        exact insertChecks_none _ _
      exact ⟨_, processFile_fail_shape w marker price f o rec _ true hparse hlog hic
        (Or.inr hmark), rfl⟩
    · by_cases hj7 : j < 7
      · have hic : insertChecks ((insertLog w.db (withPrices price rec)).1)
            (evaluate (Int.ofNat ((insertLog w.db (withPrices price rec)).2))
              (withPrices price rec)) o.checksFailAt =
            (({ (insertLog w.db (withPrices price rec)).1 with
                checks := ((insertLog w.db (withPrices price rec)).1).checks ++
                  ((evaluate (Int.ofNat ((insertLog w.db (withPrices price rec)).2))
                    (withPrices price rec)).take j).map toCheckRow } : DB), false) := by
          rw [hco]
          exact insertChecks_fail _ _ j hj7
        exact ⟨_, processFile_fail_shape w marker price f o rec _ false hparse hlog hic
          (Or.inl rfl), rfl⟩
      · have hmark : o.markFail = true := by
          rcases hfail with h | ⟨j2, hj2, hj27⟩
          · exact h
          · rw [hco] at hj2
            obtain rfl := Option.some.inj hj2
            exact absurd hj27 hj7
        have hic : insertChecks ((insertLog w.db (withPrices price rec)).1)
            (evaluate (Int.ofNat ((insertLog w.db (withPrices price rec)).2))
              (withPrices price rec)) o.checksFailAt =
            (({ (insertLog w.db (withPrices price rec)).1 with
                checks := ((insertLog w.db (withPrices price rec)).1).checks ++
                  (evaluate (Int.ofNat ((insertLog w.db (withPrices price rec)).2))
                    (withPrices price rec)).map toCheckRow } : DB), true) := by
          rw [hco]
          exact insertChecks_past _ _ j (Nat.le_of_not_lt hj7)
        exact ⟨_, processFile_fail_shape w marker price f o rec _ true hparse hlog hic
          (Or.inr hmark), rfl⟩
  obtain ⟨db2, hA, hlogs2⟩ := hex
  have hfp : (withPrices price rec).filepath = f.name := by
    rw [withPrices_filepath]
    exact parseLogFile_filepath f.name f.doc rec hparse
  have hb := processFile_benign ({ w with db := db2 } : World) marker price f rec hparse
  rw [hA]
  refine ⟨rfl, hlogs2, rfl, fun h => h, ?_, ?_⟩
  · rw [hb.1]
    have : ({ w with db := db2 } : World).db.logs = db2.logs := rfl
    rw [this, hlogs2]
    simp
  · rw [hb.2]
    have : ({ w with db := db2 } : World).db.logs = db2.logs := rfl
    rw [this, hlogs2]
    simp only [List.countP_append, List.countP_cons, List.countP_nil, hfp, beq_self_eq_true,
      if_true]

/-- C10 witness: one pending file over an empty store, with the first
`insert_checks` statement failing — the call reports failure, and
reprocessing the file yields log id 2 (a duplicate row for `a.json`). -/
theorem C10_insert_then_fail_witness :
    (processFile w10 "_" price0 f10 ({ checksFailAt := some 0 } : FailOracle)).2 = none
    ∧ (processFile (processFile w10 "_" price0 f10
        ({ checksFailAt := some 0 } : FailOracle)).1 "_" price0 f10 ({} : FailOracle)).2 =
          some 2 := by
  have h := C10_insert_then_fail w10 f10 "_" "*" price0
    ({ checksFailAt := some 0 } : FailOracle)
    ({ filepath := "a.json", agent_name := none, provider := none, model := none
       user_prompt := none, instructions := none, total_input_tokens := none
       total_output_tokens := none, assistant_answer := none
       raw_json := some (.wellFormed (.obj [])) } : LLMLogRecord)
    rfl rfl (Or.inr ⟨0, rfl, by omega⟩)
  exact ⟨h.1, h.2.2.2.2.1⟩
